import Mathlib

/-!
Verification of the core of the py-scripts repository: the exponential
backoff retry decorator (job_details_scraper/retry_utils.py), the
SQLite-backed URL queue (gmail_job_alerts/urls_db.py), the LinkedIn
extraction engine (job_details_scraper/linkedin_scraper.py) and the batch
orchestration loop (job_details_scraper/job_url_processor.py).

Python text and DOM values are embedded shallowly: strings are Lean
String (worked on through their List Char data so every operation is
structurally recursive and kernel-evaluable), parsed HTML is a small
rose-tree type HNode, durations are rationals, and each fallible callable
is a function from the invocation index to that invocation's outcome.
-/

/-! ## Character and string helpers

Models of the Python text primitives used by the scraper: re.sub with
a whitespace-run pattern, str.strip, str.lower, str.split and
str.splitlines, "sep".join. All are structural recursions over List Char
so that concrete instances reduce inside the kernel.
-/

/-- Model of one pass of the regex substitution re.sub of a whitespace run
by a single space: the Boolean argument records whether the previously
emitted character closed a whitespace run. -/
def collapseWSAux : Bool → List Char → List Char
  | _, [] => []
  | prevWS, c :: cs =>
    if c.isWhitespace then
      if prevWS then collapseWSAux true cs
      else ' ' :: collapseWSAux true cs
    else c :: collapseWSAux false cs

/-- Replace every maximal whitespace run by a single space, as the Python
re.sub(r"\s+", " ", s) does. -/
def collapseWhitespace (l : List Char) : List Char :=
  collapseWSAux false l

/-- Model of str.strip(): drop whitespace from both ends. -/
def trimChars (l : List Char) : List Char :=
  ((l.dropWhile Char.isWhitespace).reverse.dropWhile Char.isWhitespace).reverse

/-- The module's _clean_text: collapse whitespace runs to single spaces,
then strip the ends. -/
def _clean_text (s : String) : String :=
  ⟨trimChars (collapseWhitespace s.data)⟩

/-- Model of splitting a character list at every character satisfying p,
keeping empty segments, as str.split and str.splitlines do. -/
def splitBy (p : Char → Bool) : List Char → List (List Char)
  | [] => [[]]
  | c :: cs =>
    let r := splitBy p cs
    if p c then [] :: r
    else
      match r with
      | [] => [[c]]
      | x :: xs => (c :: x) :: xs

/-- Model of "sep".join over character lists. -/
def joinWith (sep : List Char) : List (List Char) → List Char
  | [] => []
  | [x] => x
  | x :: xs => x ++ sep ++ joinWith sep xs

/-- Model of "sep".join over strings. -/
def joinStrings (sep : String) : List String → String
  | [] => ""
  | [x] => x
  | x :: xs => x ++ sep ++ joinStrings sep xs

/-- Model of str.lower (ASCII case folding, as all header texts here are
ASCII). -/
def pyLower (s : String) : String :=
  ⟨s.data.map Char.toLower⟩

/-! ## The retry executor (retry_utils.exponential_backoff_retry)

The decorated callable is modelled as a map from the invocation index
(0-based) to what that invocation does: return a value of type α or raise
an exception of kind ε. The set exceptions_to_retry becomes a Boolean
predicate on ε. The value random.uniform(0, 0.5) drawn before the n-th
sleep is an oracle jitter n. The wrapper's observable behaviour is the
final outcome together with the number of invocations of func and the
list of delays handed to time.sleep, in order.
-/

/-- Outcome of a single invocation of a Python callable: return a value or
raise an exception of kind ε. -/
inductive OpResult (α ε : Type) where
  | ok (v : α)
  | err (e : ε)
deriving DecidableEq

/-- What the wrapper produced by exponential_backoff_retry finally does:
return a value, (re-)raise an exception of the wrapped callable, or raise
the RuntimeError found after the while loop. -/
inductive RetryResult (α ε : Type) where
  | ok (v : α)
  | raised (e : ε)
  | runtimeError
deriving DecidableEq

/-- Instrumented result of one call of the wrapper: final outcome, total
number of invocations of the wrapped callable, and every delay slept, in
order. -/
structure RetryRun (α ε : Type) where
  result : RetryResult α ε
  calls : Nat
  delays : List ℚ
deriving DecidableEq

/-- The while loop of exponential_backoff_retry.wrapper, entered with the
Python local retries holding the given value. One loop iteration invokes
op retries (so within a run started at retries = 0 the argument of op is
the 0-based invocation index: retries only ever grows by 1 right after an
invocation). On a caught retryable exception past the bound the exception
is re-raised; on an uncaught kind it propagates; past the loop guard the
trailing RuntimeError is raised. The calls field counts invocations in
absolute terms, i.e. it includes the retries invocations made before this
iteration when the loop is entered midway. -/
def retryLoop (max_retries : Int) (base_delay max_delay : ℚ)
    (retryable : ε → Bool) (op : Nat → OpResult α ε) (jitter : Nat → ℚ)
    (retries : Nat) : RetryRun α ε :=
  if _h : (retries : Int) < max_retries then
    match op retries with
    | .ok v => ⟨.ok v, retries + 1, []⟩
    | .err e =>
      if retryable e then
        if max_retries ≤ (retries : Int) + 1 then
          ⟨.raised e, retries + 1, []⟩
        else
          let backoff_delay : ℚ := base_delay * 2 ^ retries
          let current_delay : ℚ := min (backoff_delay + jitter retries) max_delay
          let rest := retryLoop max_retries base_delay max_delay retryable op jitter (retries + 1)
          ⟨rest.result, rest.calls, current_delay :: rest.delays⟩
      else ⟨.raised e, retries + 1, []⟩
  else ⟨.runtimeError, retries, []⟩
termination_by (max_retries - (retries : Int)).toNat
decreasing_by omega

/-- One call of the function returned by
exponential_backoff_retry(max_retries, base_delay, max_delay,
exceptions_to_retry) applied to func: run the while loop from
retries = 0. -/
def exponential_backoff_retry (max_retries : Int) (base_delay max_delay : ℚ)
    (retryable : ε → Bool) (op : Nat → OpResult α ε) (jitter : Nat → ℚ) :
    RetryRun α ε :=
  retryLoop max_retries base_delay max_delay retryable op jitter 0

/-! ## The durable URL queue (gmail_job_alerts/urls_db.py)

The table urls has the single column url TEXT PRIMARY KEY; its contents
are modelled as the list of rows. INSERT OR IGNORE appends a row unless
an equal one exists; SELECT url FROM urls LIMIT n yields the first n rows
of the storage order; DELETE FROM urls WHERE url = ? removes every row
equal to the given value.
-/

/-- Effect on the table of INSERT OR IGNORE INTO urls (url) VALUES (?):
a duplicate of the PRIMARY KEY is silently ignored. -/
def insertOrIgnore (db : List String) (u : String) : List String :=
  if u ∈ db then db else db ++ [u]

/-- write_batch(urls): executemany of the INSERT OR IGNORE statement over
the batch. An empty batch returns without touching the database. -/
def write_batch (db : List String) (urls : List String) : List String :=
  urls.foldl insertOrIgnore db

/-- read_urls(limit): SELECT url FROM urls LIMIT ?, yielding up to limit
rows in storage order. -/
def read_urls (db : List String) (limit : Nat) : List String :=
  db.take limit

/-- delete_urls(*urls): executemany of DELETE FROM urls WHERE url = ?
over the given values; an empty argument list returns immediately, which
coincides with filtering by membership in the empty list. -/
def delete_urls (db : List String) (urls : List String) : List String :=
  db.filter (fun r => decide (¬ r ∈ urls))

/-! ## Parsed HTML documents

A BeautifulSoup parse tree is modelled as a rose tree: a node is either a
NavigableString or a Tag with a name, an attribute list and the list of
its direct children (Tag.contents). Traversals are mutual structural
recursions so that they evaluate inside the kernel.
-/

/-- A node of a parsed HTML document. -/
inductive HNode where
  | text (s : String)
  | elem (tag : String) (attrs : List (String × String)) (children : List HNode)

/-- Direct children, i.e. Tag.contents (a NavigableString has none). -/
def HNode.children : HNode → List HNode
  | .text _ => []
  | .elem _ _ cs => cs

/-- Attribute list of a Tag (a NavigableString has none). -/
def HNode.attrs : HNode → List (String × String)
  | .text _ => []
  | .elem _ a _ => a

/-- The test isinstance(node, Tag) and node.name == name. -/
def HNode.isTag (n : HNode) (name : String) : Bool :=
  match n with
  | .elem t _ _ => t == name
  | .text _ => false

/-- Whether the Tag carries the given attribute at all. -/
def HNode.hasAttr (n : HNode) (key : String) : Bool :=
  n.attrs.any (fun p => p.1 == key)

mutual
/-- A node followed by all its descendants, in document order. -/
def HNode.preorder : HNode → List HNode
  | .text s => [.text s]
  | .elem t a cs => .elem t a cs :: preorderList cs
/-- Document-order listing of a forest of nodes with their descendants. -/
def preorderList : List HNode → List HNode
  | [] => []
  | n :: ns => n.preorder ++ preorderList ns
end

mutual
/-- The strings of all NavigableString descendants, in document order. -/
def HNode.texts : HNode → List String
  | .text s => [s]
  | .elem _ _ cs => textsList cs
/-- Text collection over a forest. -/
def textsList : List HNode → List String
  | [] => []
  | n :: ns => n.texts ++ textsList ns
end

/-- Tag.get_text(separator=sep): all descendant strings joined by sep. -/
def HNode.getTextSep (n : HNode) (sep : String) : String :=
  joinStrings sep n.texts

/-- Tag.get_text() with the default empty separator. -/
def HNode.textAll (n : HNode) : String :=
  joinStrings "" n.texts

mutual
/-- Effect of the loop that calls br.replace_with("\n") on every br tag
found below a node: each br element, at any depth, becomes the string
newline (dropping whatever it contained). -/
def HNode.brReplace : HNode → HNode
  | .text s => .text s
  | .elem t a cs => if t == "br" then .text "\n" else .elem t a (brReplaceList cs)
/-- The br replacement over a forest. -/
def brReplaceList : List HNode → List HNode
  | [] => []
  | n :: ns => n.brReplace :: brReplaceList ns
end

/-- CSS class membership: bs4 splits the class attribute on whitespace
into tokens and a .cls selector matches a full token. -/
def HNode.hasClass (n : HNode) (cls : String) : Bool :=
  match n.attrs.find? (fun p => p.1 == "class") with
  | some p =>
    ((splitBy (fun c => c.isWhitespace) p.2.data).filter (fun l => !l.isEmpty)).contains cls.data
  | none => false

/-! ## The extraction engine (linkedin_scraper.py) -/

/-- SECTION_ALIASES: mapping of common section aliases to standardized
keys. -/
def SECTION_ALIASES : List (String × String) :=
  [("what you\x27ll do", "responsibilities"),
   ("responsibilities", "responsibilities"),
   ("what we look for", "qualifications"),
   ("requirements", "qualifications"),
   ("qualifications", "qualifications"),
   ("what we offer", "benefits"),
   ("benefits", "benefits")]

/-- SECTION_ALIASES.get(t, t). -/
def sectionAlias (t : String) : String :=
  match SECTION_ALIASES.find? (fun p => p.1 == t) with
  | some p => p.2
  | none => t

/-- _text_with_newlines: re-parse the element, turn br tags into
newlines, extract text with newline separators, then strip each line and
drop blank ones. -/
def _text_with_newlines (el : HNode) : String :=
  let el2 := el.brReplace
  let lines := splitBy (fun c => c == '\n' || c == '\r') (el2.getTextSep "\n").data
  ⟨joinWith ['\n'] ((lines.map trimChars).filter (fun l => !l.isEmpty))⟩

/-- The trailing-punctuation strip re.sub(r"[:\-\–]+$", "", s). -/
def stripTrailingHeaderPunct (l : List Char) : List Char :=
  (l.reverse.dropWhile (fun c => c == ':' || c == '-' || c == '–')).reverse

/-- normalize_header, the inner helper of _extract_description_sections:
lower-case, strip trailing colon/dash characters, clean whitespace,
collapse once more, then map through the alias table. -/
def normalize_header (text : String) : String :=
  let t := _clean_text ⟨stripTrailingHeaderPunct (pyLower text).data⟩
  sectionAlias ⟨collapseWhitespace t.data⟩

/-- The list comprehension over ul.find_all("li"): each descendant li
contributes its cleaned newline-preserving text, blanks dropped. -/
def listItems (ul : HNode) : List String :=
  (((preorderList ul.children).filter (fun n => n.isTag "li")).map
    (fun li => _clean_text (_text_with_newlines li))).filter (fun x => x != "")

/-- node.find_next(lambda t, Tag with name ul) as seen from a direct
child of the walked region: the next elements in document order are the
node's own descendants followed by the later siblings with their
descendants (the region is the whole scope modelled). -/
def findNextUl (node : HNode) (rest : List HNode) : Option HNode :=
  (preorderList node.children ++ preorderList rest).find? (fun t => t.isTag "ul")

/-- Python truthiness of the current_header variable, which holds None or
a string: None and the empty string are falsy. -/
def pyTruthyStr : Option String → Bool
  | none => false
  | some s => s != ""

/-- The assignment sections[-1] = (sections[-1][0], sections[-1][1] + items). -/
def updateLastItems : List (String × List String) → List String → List (String × List String)
  | [], _ => []
  | [p], items => [(p.1, p.2 ++ items)]
  | p :: q :: rest, items => p :: updateLastItems (q :: rest) items

/-- The summary-text computation of the walk's final branch:
_text_with_newlines for a Tag, str(node).strip() for a NavigableString,
then _clean_text either way. -/
def nodeSummaryText : HNode → String
  | .text s => _clean_text ⟨trimChars s.data⟩
  | .elem t a cs => _clean_text (_text_with_newlines (.elem t a cs))

/-- The traversal over rich.contents of _extract_description_sections,
carrying current_header, the accumulator sections and the
before_first_header_chunks buffer. A strong node opens a new section
keyed by its normalized header and immediately absorbs the items of the
next ul found anywhere forward in document order; a ul met while a
truthy current section key is open appends its items to the last
section; any other node is collected as summary text while sections is
still empty and is ignored afterwards. -/
def sectionWalk : List HNode → Option String → List (String × List String) → List String →
    List (String × List String) × List String
  | [], _, sections, chunks => (sections, chunks)
  | node :: rest, current_header, sections, chunks =>
    if node.isTag "strong" then
      let header_key := normalize_header ⟨trimChars (node.getTextSep " ").data⟩
      let items :=
        match findNextUl node rest with
        | some ul => listItems ul
        | none => []
      sectionWalk rest (some header_key) (sections ++ [(header_key, items)]) chunks
    else if node.isTag "ul" && pyTruthyStr current_header then
      sectionWalk rest current_header (updateLastItems sections (listItems node)) chunks
    else if sections.isEmpty then
      sectionWalk rest current_header sections
        (if nodeSummaryText node == "" then chunks else chunks ++ [nodeSummaryText node])
    else
      sectionWalk rest current_header sections chunks

/-- The output dictionary of _extract_description_sections. -/
structure DescriptionSections where
  summary : String
  responsibilities : List String
  qualifications : List String
  benefits : List String
deriving DecidableEq

/-- The final loop of _extract_description_sections: copy the items of
each recognized key into the result, later sections with the same key
overwriting earlier ones; all other keys are discarded. -/
def assignSections (sections : List (String × List String)) (summary : String) :
    DescriptionSections :=
  sections.foldl
    (fun acc kv =>
      if kv.1 == "responsibilities" then ⟨acc.summary, kv.2, acc.qualifications, acc.benefits⟩
      else if kv.1 == "qualifications" then ⟨acc.summary, acc.responsibilities, kv.2, acc.benefits⟩
      else if kv.1 == "benefits" then ⟨acc.summary, acc.responsibilities, acc.qualifications, kv.2⟩
      else acc)
    ⟨summary, [], [], []⟩

/-- The body of _extract_description_sections once the rich region is
fixed: replace br tags below the region by newlines, walk the region's
direct children, join the pre-header chunks with blank lines into the
summary and assign the recognized sections. -/
def _extract_description_sections_from (rich : HNode) : DescriptionSections :=
  let contents := brReplaceList rich.children
  let sw := sectionWalk contents none [] []
  assignSections sw.1 (if sw.2.isEmpty then "" else joinStrings "\n\n" sw.2)

/-- The selector div.description__text--rich, div.description__text. -/
def isDescRoot (n : HNode) : Bool :=
  (n.isTag "div" && n.hasClass "description__text--rich") ||
  (n.isTag "div" && n.hasClass "description__text")

/-- _extract_description_sections(details_root): select the description
region (first match in document order), narrow to the
show-more-less-html__markup element when present, then run the walk; an
absent region yields the empty result. -/
def _extract_description_sections (details_root : HNode) : DescriptionSections :=
  match (preorderList details_root.children).find? isDescRoot with
  | none => ⟨"", [], [], []⟩
  | some desc_root =>
    let rich :=
      ((preorderList desc_root.children).find?
        (fun n => n.hasClass "show-more-less-html__markup")).getD desc_root
    _extract_description_sections_from rich

/-- soup.find("h1"): first h1 Tag in document order. -/
def find_title_tag (soup : HNode) : Option HNode :=
  (preorderList soup.children).find? (fun n => n.isTag "h1")

/-- The title assignment of get_job_details_from_url: the h1's cleaned
text when an h1 exists, None otherwise. -/
def extract_title (soup : HNode) : Option String :=
  (find_title_tag soup).map (fun tag => _clean_text tag.textAll)

/-- The selector [data-company-name], a.topcard__org-name-link,
span.topcard__flavor. -/
def isCompanyElement (n : HNode) : Bool :=
  n.hasAttr "data-company-name" ||
  (n.isTag "a" && n.hasClass "topcard__org-name-link") ||
  (n.isTag "span" && n.hasClass "topcard__flavor")

/-- soup.select_one over the company selectors: first match in document
order. -/
def find_company_tag (soup : HNode) : Option HNode :=
  (preorderList soup.children).find? isCompanyElement

/-- The company assignment of get_job_details_from_url: None when no
selector matches, the cleaned text of the first match otherwise. -/
def extract_company (soup : HNode) : Option String :=
  (find_company_tag soup).map (fun tag => _clean_text tag.textAll)

/-- soup.select_one("div.decorated-job-posting__details") or soup. -/
def soupDetailsRoot (soup : HNode) : HNode :=
  ((preorderList soup.children).find?
    (fun n => n.isTag "div" && n.hasClass "decorated-job-posting__details")).getD soup

/-- The fields of the data dictionary built by get_job_details_from_url
that the description pipeline and the scalar extractors populate. The
dictionary additionally carries the criteria and compensation entries
produced by _extract_job_criteria and _extract_compensation, which none
of the statements below inspect and which are therefore not modelled. -/
structure JobData where
  title : Option String
  company : Option String
  summary : Option String
  responsibilities : List String
  qualifications : List String
  benefits : List String
  source_url : String
deriving DecidableEq

/-- Construction of the data dictionary from the parsed document: title
from the first h1, description sections from the details root, company
from the first company-selector match; the summary entry is
desc.get("summary") or None, so a blank summary becomes None. -/
def extract_job_data (url : String) (soup : HNode) : JobData :=
  let desc := _extract_description_sections (soupDetailsRoot soup)
  ⟨extract_title soup, extract_company soup,
   (if desc.summary == "" then none else some desc.summary),
   desc.responsibilities, desc.qualifications, desc.benefits, url⟩

/-! ## The decorated fetcher and the orchestration loop -/

/-- What requests.get returned: a status code and the parsed body. -/
structure HttpResponse where
  status_code : Nat
  body : HNode

/-- Exception kinds a fetch attempt can raise: requests.HTTPError (the
only kind in exceptions_to_retry) from raise_for_status, or any other
requests failure, which the decorator does not catch. -/
inductive FetchError where
  | httpError (status : Nat)
  | connectionFailure
deriving DecidableEq

/-- What one (undecorated) call of get_job_details_from_url returns: the
minimal sentinel dictionary of the 404 branch, or the full data
dictionary. -/
inductive ScrapeResult where
  | notFound (error : String) (source_url : String)
  | success (data : JobData)
deriving DecidableEq

/-- The body of get_job_details_from_url given the response of this
attempt's requests.get: a 404 returns the sentinel dictionary before
anything else runs; any other 4xx/5xx status makes raise_for_status
raise HTTPError; otherwise the document is parsed and the data
dictionary built. -/
def get_job_details_once (url : String) (resp : HttpResponse) : OpResult ScrapeResult FetchError :=
  if resp.status_code == 404 then .ok (.notFound "Job not found" url)
  else if 400 ≤ resp.status_code ∧ resp.status_code < 600 then .err (.httpError resp.status_code)
  else .ok (.success (extract_job_data url resp.body))

/-- One attempt of the undecorated function when the network delivers
net n on the n-th attempt: a raised network failure propagates, a
delivered response is processed by the function body. -/
def get_job_details_op (url : String) (net : Nat → OpResult HttpResponse FetchError) (n : Nat) :
    OpResult ScrapeResult FetchError :=
  match net n with
  | .err e => .err e
  | .ok resp => get_job_details_once url resp

/-- The membership test of exceptions_to_retry = (requests.HTTPError,). -/
def isHTTPError : FetchError → Bool
  | .httpError _ => true
  | .connectionFailure => false

/-- The decorated get_job_details_from_url: the body wrapped by
exponential_backoff_retry(max_retries=3, base_delay=2,
exceptions_to_retry=(requests.HTTPError,)) with the default max_delay of
60. -/
def get_job_details_from_url (url : String) (net : Nat → OpResult HttpResponse FetchError)
    (jitter : Nat → ℚ) : RetryRun ScrapeResult FetchError :=
  exponential_backoff_retry 3 2 60 isHTTPError (get_job_details_op url net) jitter

/-- job_id derivation in process_all_job_urls:
url.rstrip("/").split("/")[-1]. -/
def job_id_of (url : String) : String :=
  ⟨(splitBy (fun c => c == '/')
      ((url.data.reverse.dropWhile (fun c => c == '/')).reverse)).getLastD []⟩

/-- An abnormal outcome escaping one item's processing and hence the
whole loop: an exception re-raised by the retry wrapper, or its trailing
RuntimeError. -/
inductive LoopAbort (ε : Type) where
  | raised (e : ε)
  | runtimeError
deriving DecidableEq

/-- The for loop over the peeked batch in process_all_job_urls:
stopRequested i is the value of the global _stop_requested flag when the
i-th item's check runs; a set flag breaks out of the for loop, a fetched
item is collected, and an exception escaping the fetch aborts the whole
function. Returns the urls actually processed. -/
def processBatchItems (stopRequested : Nat → Bool)
    (fetch : String → String → RetryRun α ε) :
    List String → Nat → Except (LoopAbort ε) (List String)
  | [], _ => .ok []
  | url :: rest, i =>
    if stopRequested i then .ok []
    else
      match (fetch url (job_id_of url)).result with
      | .raised e => .error (.raised e)
      | .runtimeError => .error .runtimeError
      | .ok _ =>
        match processBatchItems stopRequested fetch rest (i + 1) with
        | .error a => .error a
        | .ok done => .ok (url :: done)

/-- One iteration of the while loop of process_all_job_urls: peek a
batch with read_urls, run the for loop over it, then — whether or not
the flag cut the loop short — call delete_urls with the full peeked
batch. On an escaping exception nothing is deleted. Returns the
processed urls and the database contents after the deletion. -/
def process_one_batch (db : List String) (batch_size : Nat) (stopRequested : Nat → Bool)
    (fetch : String → String → RetryRun α ε) :
    Except (LoopAbort ε) (List String × List String) :=
  match processBatchItems stopRequested fetch (read_urls db batch_size) 0 with
  | .error a => .error a
  | .ok processed => .ok (processed, delete_urls db (read_urls db batch_size))

/-! ## Concrete documents used to instantiate the statements -/

/-- A details root containing a description region whose direct children
are the bold header "Responsibilities", a 3-item list, the bold header
"What We Offer" and a 2-item list. -/
def sectionDemoDetails : HNode :=
  .elem "div" []
    [.elem "div" [("class", "description__text")]
      [.elem "strong" [] [.text "Responsibilities"],
       .elem "ul" []
         [.elem "li" [] [.text "Build features"],
          .elem "li" [] [.text "Review code"],
          .elem "li" [] [.text "Ship releases"]],
       .elem "strong" [] [.text "What We Offer"],
       .elem "ul" []
         [.elem "li" [] [.text "Remote work"],
          .elem "li" [] [.text "Health insurance"]]]]

/-- A document whose only h1 contains whitespace-only text. -/
def blankTitleDoc : HNode :=
  .elem "html" [] [.elem "body" [] [.elem "h1" [] [.text "   "]]]

/-- A document with a discoverable title and company element. -/
def demoSoup : HNode :=
  .elem "html" []
    [.elem "body" []
      [.elem "h1" [] [.text " Senior  Engineer "],
       .elem "a" [("class", "topcard__org-name-link")] [.text " Acme  Corp "]]]

/-! ## Helper lemmas about the retry loop's delay sequence -/

/-- When an iteration of the retry loop sleeps and re-enters the loop,
the delay it slept is the backoff formula at the failing attempt's
0-based index. -/
theorem retryLoop_delays_cons (max_retries : Int) (bd md : ℚ) (retryable : ε → Bool)
    (op : Nat → OpResult α ε) (jit : Nat → ℚ) (s : Nat) (e : ε)
    (h1 : (s : Int) < max_retries) (hop : op s = .err e) (hr : retryable e = true)
    (h2 : ¬ max_retries ≤ (s : Int) + 1) :
    (retryLoop max_retries bd md retryable op jit s).delays
      = min (bd * 2 ^ s + jit s) md
          :: (retryLoop max_retries bd md retryable op jit (s + 1)).delays := by
  conv_lhs => rw [retryLoop]
  simp [h1, hop, hr, h2]

/-- In every non-sleeping case the iteration returns with no further
delay recorded. -/
theorem retryLoop_delays_eq_nil (max_retries : Int) (bd md : ℚ) (retryable : ε → Bool)
    (op : Nat → OpResult α ε) (jit : Nat → ℚ) (s : Nat)
    (h : ¬ ((s : Int) < max_retries ∧
        ∃ e, op s = .err e ∧ retryable e = true ∧ ¬ max_retries ≤ (s : Int) + 1)) :
    (retryLoop max_retries bd md retryable op jit s).delays = [] := by
  conv_lhs => rw [retryLoop]
  by_cases h1 : (s : Int) < max_retries
  · cases hop : op s with
    | ok v => simp [h1, hop]
    | err e =>
      cases hr : retryable e with
      | false => simp [h1, hop, hr]
      | true =>
        have h2 : max_retries ≤ (s : Int) + 1 := by
          by_contra h2
          exact h ⟨h1, e, hop, hr, h2⟩
        simp [h1, hop, hr, h2]
  · simp [h1]

/-- The i-th recorded delay of a loop entered at retries = s is the
backoff formula at index s + i. -/
theorem retryLoop_delays_get? (max_retries : Int) (bd md : ℚ) (retryable : ε → Bool)
    (op : Nat → OpResult α ε) (jit : Nat → ℚ) :
    ∀ (i s : Nat), i < (retryLoop max_retries bd md retryable op jit s).delays.length →
      (retryLoop max_retries bd md retryable op jit s).delays.get? i
        = some (min (bd * 2 ^ (s + i) + jit (s + i)) md) := by
  intro i
  induction i with
  | zero =>
    intro s hlen
    by_cases hc : (s : Int) < max_retries ∧
        ∃ e, op s = .err e ∧ retryable e = true ∧ ¬ max_retries ≤ (s : Int) + 1
    · obtain ⟨h1, e, hop, hr, h2⟩ := hc
      rw [retryLoop_delays_cons max_retries bd md retryable op jit s e h1 hop hr h2]
      simp
    · rw [retryLoop_delays_eq_nil max_retries bd md retryable op jit s hc] at hlen
      simp at hlen
  | succ i ih =>
    intro s hlen
    by_cases hc : (s : Int) < max_retries ∧
        ∃ e, op s = .err e ∧ retryable e = true ∧ ¬ max_retries ≤ (s : Int) + 1
    · obtain ⟨h1, e, hop, hr, h2⟩ := hc
      rw [retryLoop_delays_cons max_retries bd md retryable op jit s e h1 hop hr h2] at hlen ⊢
      rw [List.get?_cons_succ]
      have harith : s + 1 + i = s + (i + 1) := by omega
      rw [← harith]
      exact ih (s + 1) (by simpa using hlen)
    · rw [retryLoop_delays_eq_nil max_retries bd md retryable op jit s hc] at hlen
      simp at hlen

/-! ## Claims about the retry executor -/

/-- Claim C3: an operation that raises a retryable error on every
invocation, executed through the wrapper with maxRetries = 3, is invoked
exactly 3 times and the last error is then re-raised to the caller
rather than swallowed. -/
theorem retry_bound_three_calls_then_reraise (op : Nat → OpResult α ε) (e : Nat → ε)
    (retryable : ε → Bool) (bd md : ℚ) (jit : Nat → ℚ)
    (hop : ∀ n, op n = .err (e n)) (hr : ∀ n, retryable (e n) = true) :
    (exponential_backoff_retry 3 bd md retryable op jit).result = .raised (e 2) ∧
    (exponential_backoff_retry 3 bd md retryable op jit).calls = 3 := by
  simp [exponential_backoff_retry, retryLoop, hop, hr]

theorem retry_bound_three_calls_then_reraise_witness :
    (exponential_backoff_retry 3 1 60 (fun _ : Nat => true)
        (fun n => OpResult.err (α := Unit) n) (fun _ => 0)).result = .raised 2 ∧
    (exponential_backoff_retry 3 1 60 (fun _ : Nat => true)
        (fun n => OpResult.err (α := Unit) n) (fun _ => 0)).calls = 3 :=
  retry_bound_three_calls_then_reraise (fun n => OpResult.err n) (fun n => n)
    (fun _ => true) 1 60 (fun _ => 0) (fun _ => rfl) (fun _ => rfl)

/-- Claim C5: an error whose kind is outside exceptions_to_retry
propagates after exactly one invocation, with no sleep and no retry. -/
theorem nonretryable_propagates_once (max_retries : Int) (bd md : ℚ)
    (retryable : ε → Bool) (op : Nat → OpResult α ε) (jit : Nat → ℚ) (e : ε)
    (hmr : 0 < max_retries) (h0 : op 0 = .err e) (hr : retryable e = false) :
    exponential_backoff_retry max_retries bd md retryable op jit = ⟨.raised e, 1, []⟩ := by
  rw [exponential_backoff_retry]
  conv_lhs => rw [retryLoop]
  simp [hmr, h0, hr]

theorem nonretryable_propagates_once_witness :
    exponential_backoff_retry 3 1 60 (fun _ : Nat => false)
      (fun _ => OpResult.err (α := Unit) 7) (fun _ => 0) = ⟨.raised 7, 1, []⟩ :=
  nonretryable_propagates_once 3 1 60 (fun _ => false) (fun _ => OpResult.err 7)
    (fun _ => 0) 7 (by norm_num) rfl rfl

/-- Claim C9: an operation that raises retryable errors on its first two
invocations and succeeds on the third, executed with maxRetries = 4,
returns the success value after exactly 3 invocations. -/
theorem retry_success_after_two_failures (bd md : ℚ) (retryable : ε → Bool)
    (op : Nat → OpResult α ε) (jit : Nat → ℚ) (v : α) (e0 e1 : ε)
    (h0 : op 0 = .err e0) (h1 : op 1 = .err e1) (h2 : op 2 = .ok v)
    (hr0 : retryable e0 = true) (hr1 : retryable e1 = true) :
    (exponential_backoff_retry 4 bd md retryable op jit).result = .ok v ∧
    (exponential_backoff_retry 4 bd md retryable op jit).calls = 3 := by
  simp [exponential_backoff_retry, retryLoop, h0, h1, h2, hr0, hr1]

theorem retry_success_after_two_failures_witness :
    (exponential_backoff_retry 4 1 60 (fun _ : Nat => true)
        (fun n => if n == 0 then OpResult.err 10 else if n == 1 then OpResult.err 11
          else OpResult.ok "done") (fun _ => 0)).result = .ok "done" ∧
    (exponential_backoff_retry 4 1 60 (fun _ : Nat => true)
        (fun n => if n == 0 then OpResult.err 10 else if n == 1 then OpResult.err 11
          else OpResult.ok "done") (fun _ => 0)).calls = 3 :=
  retry_success_after_two_failures 1 60 (fun _ => true) _ (fun _ => 0) "done" 10 11
    rfl rfl rfl rfl rfl

/-- Claim C10: with max_retries at most 0 the while loop never runs, so
the wrapped operation is never invoked and the trailing RuntimeError is
raised. -/
theorem nonpositive_bound_never_invokes (max_retries : Int) (bd md : ℚ)
    (retryable : ε → Bool) (op : Nat → OpResult α ε) (jit : Nat → ℚ)
    (hmr : max_retries ≤ 0) :
    exponential_backoff_retry max_retries bd md retryable op jit = ⟨.runtimeError, 0, []⟩ := by
  have hneg : ¬ (0 : Int) < max_retries := by omega
  rw [exponential_backoff_retry]
  conv_lhs => rw [retryLoop]
  simp [hneg]

theorem nonpositive_bound_never_invokes_witness :
    exponential_backoff_retry 0 1 60 (fun _ : Nat => true)
      (fun _ => OpResult.err (α := Unit) 5) (fun _ => 0) = ⟨.runtimeError, 0, []⟩ :=
  nonpositive_bound_never_invokes 0 1 60 (fun _ => true) (fun _ => OpResult.err 5)
    (fun _ => 0) (by norm_num)

/-- Claim C8: whenever attempt a (1-based) failed with a retryable error
and another attempt follows, the delay slept before that next attempt is
min(baseDelay * 2 ^ (a-1) + jitter, maxDelay), where the jitter is the
value drawn from uniform(0, 0.5); in particular no recorded delay ever
exceeds maxDelay. -/
theorem backoff_delay_formula (max_retries : Int) (bd md : ℚ) (retryable : ε → Bool)
    (op : Nat → OpResult α ε) (jit : Nat → ℚ) (a : Nat)
    (hjit : ∀ n, 0 ≤ jit n ∧ jit n ≤ 1 / 2) (ha : 1 ≤ a)
    (hlen : a - 1 < (exponential_backoff_retry max_retries bd md retryable op jit).delays.length) :
    (exponential_backoff_retry max_retries bd md retryable op jit).delays.get? (a - 1)
      = some (min (bd * 2 ^ (a - 1) + jit (a - 1)) md) ∧
    ∀ d ∈ (exponential_backoff_retry max_retries bd md retryable op jit).delays, d ≤ md := by
  constructor
  · have h := retryLoop_delays_get? max_retries bd md retryable op jit (a - 1) 0
      (by simpa [exponential_backoff_retry] using hlen)
    simpa [exponential_backoff_retry] using h
  · intro d hd
    obtain ⟨n, hn⟩ := List.mem_iff_get?.mp hd
    have hnlen : n < (exponential_backoff_retry max_retries bd md retryable op jit).delays.length := by
      rcases List.get?_eq_some.mp hn with ⟨hlt, _⟩
      exact hlt
    have h := retryLoop_delays_get? max_retries bd md retryable op jit n 0
      (by simpa [exponential_backoff_retry] using hnlen)
    rw [exponential_backoff_retry] at hn
    rw [hn] at h
    have hd2 : d = min (bd * 2 ^ (0 + n) + jit (0 + n)) md := by
      injection h
    rw [hd2]
    exact min_le_right _ _

theorem backoff_delay_formula_witness :
    (exponential_backoff_retry 3 2 60 (fun _ : Unit => true)
        (fun _ => OpResult.err (α := Unit) ()) (fun _ => 1 / 4)).delays.get? 0
      = some (min (2 * 2 ^ 0 + 1 / 4) 60) :=
  (backoff_delay_formula 3 2 60 (fun _ => true) (fun _ => OpResult.err ())
    (fun _ => 1 / 4) 1 (fun _ => by norm_num) (by norm_num)
    (by simp [exponential_backoff_retry, retryLoop])).1

/-! ## Claims about the fetch short-circuit and the orchestration loop -/

/-- Claim C6: a fetch that returns status 404 makes the decorated
get_job_details_from_url return the minimal sentinel record carrying the
error message and the source URL, after exactly one invocation and with
no sleep — the not-found outcome is a normal return, so the retry
executor does not retry it; and the 404 branch returns before the
extraction engine runs, so its outcome does not depend on the response
body at all. -/
theorem not_found_short_circuit (url : String)
    (net : Nat → OpResult HttpResponse FetchError) (jit : Nat → ℚ) (resp : HttpResponse)
    (h0 : net 0 = .ok resp) (h404 : resp.status_code = 404) :
    get_job_details_from_url url net jit
      = ⟨.ok (.notFound "Job not found" url), 1, []⟩ ∧
    (∀ body1 body2 : HNode,
      get_job_details_once url ⟨404, body1⟩ = get_job_details_once url ⟨404, body2⟩) := by
  constructor
  · rw [get_job_details_from_url, exponential_backoff_retry]
    conv_lhs => rw [retryLoop]
    simp [get_job_details_op, h0, get_job_details_once, h404]
  · intro body1 body2
    rfl

theorem not_found_short_circuit_witness :
    get_job_details_from_url "https://example.org/jobs/view/404404/"
      (fun _ => OpResult.ok ⟨404, demoSoup⟩) (fun _ => 0)
      = ⟨.ok (.notFound "Job not found" "https://example.org/jobs/view/404404/"), 1, []⟩ :=
  (not_found_short_circuit "https://example.org/jobs/view/404404/"
    (fun _ => OpResult.ok ⟨404, demoSoup⟩) (fun _ => 0) ⟨404, demoSoup⟩ rfl rfl).1

/-- Claim C4: when the per-item pass over a peeked batch completes
(including runs cut short by the shutdown flag), delete_urls receives
the full peeked batch, so the database afterwards holds none of the
peeked URLs, processed or not. -/
theorem batch_removal_complete (db : List String) (batch_size : Nat)
    (stopRequested : Nat → Bool) (fetch : String → String → RetryRun α ε)
    (processed dbAfter : List String)
    (h : process_one_batch db batch_size stopRequested fetch = .ok (processed, dbAfter)) :
    dbAfter = delete_urls db (read_urls db batch_size) ∧
    ∀ u ∈ read_urls db batch_size, u ∉ dbAfter := by
  rw [process_one_batch] at h
  cases hp : processBatchItems stopRequested fetch (read_urls db batch_size) 0 with
  | error a =>
    rw [hp] at h
    cases h
  | ok done =>
    rw [hp] at h
    have hpair : done = processed ∧ delete_urls db (read_urls db batch_size) = dbAfter := by
      have := Except.ok.inj h
      exact ⟨congrArg Prod.fst this, congrArg Prod.snd this⟩
    constructor
    · exact hpair.2.symm
    · intro u hu hmem
      rw [← hpair.2] at hmem
      rw [delete_urls, List.mem_filter] at hmem
      exact (of_decide_eq_true hmem.2) hu

theorem batch_removal_complete_witness :
    ([] : List String)
      = delete_urls ["https://x/jobs/view/1/", "https://x/jobs/view/2/"]
          (read_urls ["https://x/jobs/view/1/", "https://x/jobs/view/2/"] 5) ∧
    ¬ "https://x/jobs/view/1/" ∈ ([] : List String) := by
  have h := batch_removal_complete ["https://x/jobs/view/1/", "https://x/jobs/view/2/"] 5
    (fun i => decide (1 ≤ i)) (fun _ _ => (⟨.ok (), 1, []⟩ : RetryRun Unit Unit))
    ["https://x/jobs/view/1/"] [] (by rfl)
  exact ⟨h.1, h.2 "https://x/jobs/view/1/" (by decide)⟩

/-! ## Claims about the durable URL queue -/

/-- INSERT OR IGNORE preserves the PRIMARY KEY invariant of the table:
no URL occurs twice. -/
theorem insertOrIgnore_nodup (db : List String) (u : String) (h : db.Nodup) :
    (insertOrIgnore db u).Nodup := by
  by_cases hmem : u ∈ db
  · simpa [insertOrIgnore, hmem] using h
  · rw [insertOrIgnore, if_neg hmem, List.nodup_append]
    refine ⟨h, List.nodup_singleton u, ?_⟩
    intro a ha hb
    rw [List.mem_singleton] at hb
    exact hmem (hb ▸ ha)

/-- A whole write_batch call preserves the no-duplicates invariant. -/
theorem write_batch_nodup (urls : List String) (db : List String) (h : db.Nodup) :
    (write_batch db urls).Nodup := by
  induction urls generalizing db with
  | nil => simpa [write_batch] using h
  | cons u rest ih =>
    rw [write_batch, List.foldl_cons]
    exact ih (insertOrIgnore db u) (insertOrIgnore_nodup db u h)

/-- The inserted URL is present afterwards. -/
theorem mem_insertOrIgnore_self (db : List String) (u : String) :
    u ∈ insertOrIgnore db u := by
  by_cases hmem : u ∈ db
  · simpa [insertOrIgnore, hmem] using hmem
  · simp [insertOrIgnore, hmem]

/-- Any sequence of write_batch calls preserves the invariant. -/
theorem foldl_write_batch_nodup (batches : List (List String)) (db : List String)
    (h : db.Nodup) : (batches.foldl write_batch db).Nodup := by
  induction batches generalizing db with
  | nil => simpa using h
  | cons b rest ih =>
    rw [List.foldl_cons]
    exact ih (write_batch db b) (write_batch_nodup b db h)

/-- Claim C7: enqueueing is idempotent — two write_batch calls with the
same URL leave exactly one row for it — and after any sequence of
write_batch calls starting from a duplicate-free table every URL still
occurs at most once. -/
theorem enqueue_idempotent (u : String) (db : List String) (batches : List (List String))
    (h : db.Nodup) :
    (write_batch (write_batch db [u]) [u]).count u = 1 ∧
    (batches.foldl write_batch db).Nodup := by
  constructor
  · have h1 : write_batch db [u] = insertOrIgnore db u := by
      simp [write_batch]
    have h2 : u ∈ insertOrIgnore db u := mem_insertOrIgnore_self db u
    have h3 : ∀ X : List String, u ∈ X → write_batch X [u] = X := by
      intro X hX
      show insertOrIgnore X u = X
      rw [insertOrIgnore, if_pos hX]
    rw [h1, h3 (insertOrIgnore db u) h2]
    exact List.count_eq_one_of_mem (insertOrIgnore_nodup db u h) h2
  · exact foldl_write_batch_nodup batches db h

theorem enqueue_idempotent_witness :
    (write_batch (write_batch [] ["https://x/jobs/view/9/"]) ["https://x/jobs/view/9/"]).count
        "https://x/jobs/view/9/" = 1 ∧
    ([["https://x/jobs/view/9/"], ["https://x/jobs/view/9/", "https://x/jobs/view/8/"]].foldl
        write_batch []).Nodup :=
  enqueue_idempotent "https://x/jobs/view/9/" []
    [["https://x/jobs/view/9/"], ["https://x/jobs/view/9/", "https://x/jobs/view/8/"]]
    List.nodup_nil

/-! ## Helper lemmas about text cleaning -/

/-- Whitespace collapsing keeps at least one non-whitespace character
when the input has one. -/
theorem exists_nonWS_collapseWSAux :
    ∀ (l : List Char) (b : Bool), (∃ c ∈ l, c.isWhitespace = false) →
      ∃ c ∈ collapseWSAux b l, c.isWhitespace = false := by
  intro l
  induction l with
  | nil => intro b h; simpa using h
  | cons c cs ih =>
    intro b h
    obtain ⟨d, hd, hdw⟩ := h
    cases hc : c.isWhitespace with
    | true =>
      have hdcs : d ∈ cs := by
        rcases List.mem_cons.mp hd with heq | h2
        · subst heq
          rw [hdw] at hc
          cases hc
        · exact h2
      obtain ⟨x, hx, hxw⟩ := ih true ⟨d, hdcs, hdw⟩
      cases b with
      | true =>
        refine ⟨x, ?_, hxw⟩
        simpa [collapseWSAux, hc] using hx
      | false =>
        refine ⟨x, ?_, hxw⟩
        simp only [collapseWSAux, hc, if_true]
        exact List.mem_cons_of_mem ' ' hx
    | false =>
      refine ⟨c, ?_, hc⟩
      simp [collapseWSAux, hc]

/-- Dropping a satisfied-predicate head run keeps a witness of the
complementary value. -/
theorem exists_false_dropWhile (p : Char → Bool) :
    ∀ l : List Char, (∃ c ∈ l, p c = false) → ∃ c ∈ l.dropWhile p, p c = false := by
  intro l
  induction l with
  | nil => intro h; simpa using h
  | cons c cs ih =>
    intro h
    obtain ⟨d, hd, hdp⟩ := h
    cases hc : p c with
    | true =>
      rw [List.dropWhile_cons, hc, if_pos rfl]
      apply ih
      rcases List.mem_cons.mp hd with heq | h2
      · subst heq
        rw [hdp] at hc
        cases hc
      · exact ⟨d, h2, hdp⟩
    | false =>
      rw [List.dropWhile_cons, hc]
      exact ⟨c, List.mem_cons_self c cs, hc⟩

/-- Stripping preserves non-emptiness when some character is not
whitespace. -/
theorem trimChars_ne_nil (l : List Char) (h : ∃ c ∈ l, c.isWhitespace = false) :
    trimChars l ≠ [] := by
  rw [trimChars]
  have h1 := exists_false_dropWhile Char.isWhitespace l h
  have h2 : ∃ c ∈ (l.dropWhile Char.isWhitespace).reverse, c.isWhitespace = false := by
    obtain ⟨c, hc, hcw⟩ := h1
    exact ⟨c, List.mem_reverse.mpr hc, hcw⟩
  obtain ⟨c, hc, _⟩ := exists_false_dropWhile Char.isWhitespace _ h2
  intro heq
  rw [List.reverse_eq_nil_iff] at heq
  rw [heq] at hc
  exact List.not_mem_nil c hc

/-- _clean_text returns a non-empty string whenever its input contains a
non-whitespace character. -/
theorem clean_text_ne_empty (s : String) (h : ∃ c ∈ s.data, c.isWhitespace = false) :
    _clean_text s ≠ "" := by
  have h1 := exists_nonWS_collapseWSAux s.data false h
  have h2 := trimChars_ne_nil (collapseWSAux false s.data) h1
  intro heq
  apply h2
  have h3 := congrArg String.data heq
  simpa [_clean_text, collapseWhitespace] using h3

/-! ## Claims about scalar field extraction -/

/-- Claim C2 (amended): title and company are None exactly when the
document lacks a discoverable element for them (an h1 for title, a
company-selector match for company); a discovered element yields its
whitespace-collapsed and trimmed text, and that text is non-empty
whenever the element's text holds any non-whitespace character. (The
unamended claim is refuted separately: an element whose text is entirely
whitespace yields the empty string rather than None.) -/
theorem title_company_none_iff_nonempty (url : String) (soup : HNode) :
    ((extract_job_data url soup).title = none ↔ find_title_tag soup = none) ∧
    (∀ t, find_title_tag soup = some t →
      (extract_job_data url soup).title = some (_clean_text t.textAll)) ∧
    (∀ t, find_title_tag soup = some t →
      (∃ c ∈ t.textAll.data, c.isWhitespace = false) →
      ∀ s, (extract_job_data url soup).title = some s → s ≠ "") ∧
    ((extract_job_data url soup).company = none ↔ find_company_tag soup = none) ∧
    (∀ t, find_company_tag soup = some t →
      (extract_job_data url soup).company = some (_clean_text t.textAll)) ∧
    (∀ t, find_company_tag soup = some t →
      (∃ c ∈ t.textAll.data, c.isWhitespace = false) →
      ∀ s, (extract_job_data url soup).company = some s → s ≠ "") := by
  refine ⟨?_, ?_, ?_, ?_, ?_, ?_⟩
  · simp [extract_job_data, extract_title]
  · intro t ht
    simp [extract_job_data, extract_title, ht]
  · intro t ht hex s hs
    have heq : some s = some (_clean_text t.textAll) := by
      rw [← hs]
      simp [extract_job_data, extract_title, ht]
    have hseq : s = _clean_text t.textAll := by
      injection heq
    rw [hseq]
    exact clean_text_ne_empty t.textAll hex
  · simp [extract_job_data, extract_company]
  · intro t ht
    simp [extract_job_data, extract_company, ht]
  · intro t ht hex s hs
    have heq : some s = some (_clean_text t.textAll) := by
      rw [← hs]
      simp [extract_job_data, extract_company, ht]
    have hseq : s = _clean_text t.textAll := by
      injection heq
    rw [hseq]
    exact clean_text_ne_empty t.textAll hex

theorem title_company_none_iff_nonempty_witness :
    (extract_job_data "https://example.org/jobs/view/42/" demoSoup).title
      = some "Senior Engineer" ∧
    (extract_job_data "https://example.org/jobs/view/42/" demoSoup).company
      = some "Acme Corp" ∧
    ¬ "Senior Engineer" = "" := by
  have h := title_company_none_iff_nonempty "https://example.org/jobs/view/42/" demoSoup
  have ht := h.2.1 (HNode.elem "h1" [] [.text " Senior  Engineer "]) rfl
  have hc := h.2.2.2.2.1
    (HNode.elem "a" [("class", "topcard__org-name-link")] [.text " Acme  Corp "]) rfl
  have ht2 : (extract_job_data "https://example.org/jobs/view/42/" demoSoup).title
      = some "Senior Engineer" := by
    rw [ht]
    rfl
  refine ⟨ht2, ?_, ?_⟩
  · rw [hc]
    rfl
  · exact h.2.2.1 (HNode.elem "h1" [] [.text " Senior  Engineer "]) rfl
      (by decide) "Senior Engineer" ht2

/-- Claim C2, the unamended invariant refuted: this document's h1 exists
but holds only whitespace, and the extracted title is the empty string,
not None and not a non-empty string. -/
theorem title_empty_string_counterexample :
    (extract_job_data "https://example.org/jobs/view/7/" blankTitleDoc).title = some "" ∧
    ¬ (extract_job_data "https://example.org/jobs/view/7/" blankTitleDoc).title = none := by
  decide

/-- Claim C1: evaluation of the section-segmentation extractor on the
claim's document shape — a bold "Responsibilities" header followed by a
3-item list, then a bold "What We Offer" header followed by a 2-item
list. Each list's items are collected twice, once through the find_next
lookahead from the header and once again when the walk reaches the same
ul as a direct child, so responsibilities has length 6 and benefits
length 4 instead of the intended 3 and 2; qualifications is empty as
stated. -/
theorem section_segmentation_duplicates_items :
    (_extract_description_sections sectionDemoDetails).responsibilities
      = ["Build features", "Review code", "Ship releases",
         "Build features", "Review code", "Ship releases"] ∧
    (_extract_description_sections sectionDemoDetails).benefits
      = ["Remote work", "Health insurance", "Remote work", "Health insurance"] ∧
    (_extract_description_sections sectionDemoDetails).qualifications = [] ∧
    (_extract_description_sections sectionDemoDetails).summary = "" := by
  decide
